import Mathlib

/-!
Shallow embedding of the Bandit Decision Engine of the a-b-testing
repository: the arm models (`src/models/bandits.py`), the Thompson
Sampling server (`src/simulation/thompson_server.py`), the UCB1 server
(`src/simulation/ucb1_server.py`) and the alternation baseline server
(`src/simulation/ab_test_server.py`).

Modelling conventions:
* Python integer counters become `Nat` (they are only ever incremented).
* Python float arithmetic on estimates is modelled over `ℚ` (exact real
  semantics of the arithmetic expressions); the transcendental UCB1
  score is modelled over `ℝ` with `Real.sqrt` / `Real.log`.
* Calls to the random number generator (`np.random.random`,
  `np.random.beta`) are modelled as explicit oracle inputs: a show step
  receives the draws (or the beta-draw function) it would have obtained
  from the RNG.  Quantifying over all oracle values covers every RNG
  behaviour.
* Python list index assignment `lst[i] = x` (with its negative-index
  wrap-around and its IndexError) is modelled by `pySet`, which returns
  `none` exactly when Python raises IndexError.  A request that raises
  aborts the modelled trace.
* Flask plumbing, logging and the visualization snapshots are out of
  scope and are dropped; they do not touch the engine state.
-/

/-- `ThompsonBandit` from `src/models/bandits.py` (fields in source order).
`clicks`/`views` start at 0. -/
structure ThompsonBandit where
  clicks : ℕ
  views : ℕ
  name : String
  a_prior : ℤ
  b_prior : ℤ
  minimum_exploration : Bool
  deriving Repr, DecidableEq

/-- `ThompsonBandit.__init__`: counters start at zero. -/
def ThompsonBandit.init (name : String) (a_prior b_prior : ℤ)
    (minimum_exploration : Bool) : ThompsonBandit :=
  ⟨0, 0, name, a_prior, b_prior, minimum_exploration⟩

/-- `ThompsonBandit.sample`: computes `a = a_prior + clicks`,
`b = b_prior + views - clicks` and returns one draw from
`np.random.beta(a, b)`; the generator is the oracle `betaDraw`. -/
def ThompsonBandit.sample (betaDraw : ℤ → ℤ → ℚ) (self : ThompsonBandit) : ℚ :=
  let a : ℤ := self.a_prior + self.clicks
  let b : ℤ := self.b_prior + (self.views : ℤ) - self.clicks
  betaDraw a b

/-- `ThompsonBandit.add_click`: unconditionally increments `clicks`. -/
def ThompsonBandit.add_click (self : ThompsonBandit) : ThompsonBandit :=
  { self with clicks := self.clicks + 1 }

/-- `ThompsonBandit.add_view`: increments `views`. -/
def ThompsonBandit.add_view (self : ThompsonBandit) : ThompsonBandit :=
  { self with views := self.views + 1 }

/-- `UCB1Bandit` from `src/models/bandits.py` (fields in source order). -/
structure UCB1Bandit where
  ctr_estimate : ℚ
  clicks : ℕ
  views : ℕ
  name : String
  deriving Repr, DecidableEq

/-- `UCB1Bandit.__init__`: `ctr_estimate = 0`, `clicks = 0`, and
`views = 1` ("Start at 1 to avoid division by zero"). -/
def UCB1Bandit.init (name : String) : UCB1Bandit :=
  ⟨0, 0, 1, name⟩

/-- `UCB1Bandit.add_click`: increments `clicks`, then sets
`ctr_estimate = ((views - 1)*ctr_estimate + 1) / views`. -/
def UCB1Bandit.add_click (self : UCB1Bandit) : UCB1Bandit :=
  { self with
      clicks := self.clicks + 1
      ctr_estimate := (((self.views : ℚ) - 1) * self.ctr_estimate + 1) / (self.views : ℚ) }

/-- `UCB1Bandit.add_view`: increments `views`. -/
def UCB1Bandit.add_view (self : UCB1Bandit) : UCB1Bandit :=
  { self with views := self.views + 1 }

/-- `UCB1Bandit.sample`: `ctr_estimate + sqrt(3 * log(n_samples) / views)`. -/
noncomputable def UCB1Bandit.sample (self : UCB1Bandit) (n_samples : ℝ) : ℝ :=
  (self.ctr_estimate : ℝ) + Real.sqrt (3 * Real.log n_samples / (self.views : ℝ))

/-- Python list assignment `l[i] = x`: a negative index wraps around by
the list length; an index out of range (after wrap-around) raises
IndexError, modelled as `none`. -/
def pyIdx (len i : ℤ) : ℤ :=
  if i < 0 then len + i else i

/-- See `pyIdx`: the effective index, then the guarded write. -/
def pySet (l : List ℤ) (i : ℤ) (x : ℤ) : Option (List ℤ) :=
  if 0 ≤ pyIdx (l.length : ℤ) i ∧ pyIdx (l.length : ℤ) i < (l.length : ℤ) then
    some (l.set (pyIdx (l.length : ℤ) i).toNat x)
  else none

/-- State of the Thompson Sampling server
(`src/simulation/thompson_server.py`): the two module-level bandit
instances and the module-level `decisions` list. -/
structure TSState where
  banditA : ThompsonBandit
  banditB : ThompsonBandit
  decisions : List ℤ
  deriving Repr, DecidableEq

/-- The server's initial state: `ThompsonBandit("A", a_prior=6,
b_prior=78, minimum_exploration=False)`, `ThompsonBandit("B", a_prior=1,
b_prior=1, minimum_exploration=False)`, `decisions = []`. -/
def tsInit : TSState :=
  ⟨ThompsonBandit.init "A" 6 78 false, ThompsonBandit.init "B" 1 1 false, []⟩

/-- The `/show` route of the Thompson server.  `ua`/`ub` are the two
`np.random.random()` draws the warm-up branch would consume; `betaDraw`
is the `np.random.beta` generator used by `ThompsonBandit.sample`.
Returns the button string sent to the client and the new state.  The
visualization snapshot at `snapshot_points` is out of scope. -/
def tsShow (ua ub : ℚ) (betaDraw : ℤ → ℤ → ℚ) (s : TSState) : String × TSState :=
  let n_views := s.banditA.views + s.banditB.views
  let minimum_explore := s.banditA.minimum_exploration && s.banditB.minimum_exploration
  let decisions := s.decisions ++ [0]
  let samples : ℚ × ℚ :=
    if minimum_explore ∧ n_views < 500 then (ua, ub)
    else (s.banditA.sample betaDraw, s.banditB.sample betaDraw)
  if samples.1 > samples.2 then
    ("A", { s with banditA := s.banditA.add_view, decisions })
  else
    ("B", { s with banditB := s.banditB.add_view, decisions })

/-- The dispatch of the `/click_button` route of the Thompson server:
`add_click` on the named bandit; any other button name changes no
counter. -/
def tsClickArm (button : String) (s : TSState) : TSState :=
  if button = "A" then { s with banditA := s.banditA.add_click }
  else if button = "B" then { s with banditB := s.banditB.add_click }
  else s

/-- The `result` value of the `/click_button` route of the Thompson
server. -/
def clickResult (button : String) : String :=
  if button = "A" ∨ button = "B" then "OK" else "Invalid Input."

/-- The `/click_button` route of the Thompson server: dispatches on the
posted button name, then executes
`decisions[banditA.views + banditB.views - 1] = 1` — which in Python
happens after the click was already counted, and raises IndexError
(`none`) when the index is out of range. -/
def tsClick (button : String) (s : TSState) : Option (String × TSState) :=
  let s1 := tsClickArm button s
  match pySet s1.decisions ((s1.banditA.views : ℤ) + (s1.banditB.views : ℤ) - 1) 1 with
  | some d => some (clickResult button, { s1 with decisions := d })
  | none => none

/-- One request to the Thompson server, with the RNG draws a show
request would consume supplied as oracle data. -/
inductive TSOp where
  | show (ua ub : ℚ) (betaDraw : ℤ → ℤ → ℚ)
  | click (button : String)

/-- One server step; a step on which Python raises aborts the trace. -/
def tsStep (s : TSState) : TSOp → Option TSState
  | .show ua ub betaDraw => some (tsShow ua ub betaDraw s).2
  | .click button => (tsClick button s).map (·.2)

/-- Run a request trace against the Thompson server. -/
def tsRun (s : TSState) : List TSOp → Option TSState
  | [] => some s
  | op :: rest => match tsStep s op with
    | some s' => tsRun s' rest
    | none => none

/-- The per-arm counter invariant claimed by the spec. -/
def tsInv (s : TSState) : Prop :=
  s.banditA.clicks ≤ s.banditA.views ∧ s.banditB.clicks ≤ s.banditB.views

instance (s : TSState) : Decidable (tsInv s) := by
  unfold tsInv; infer_instance

/-- A trace is click-guarded when every `click` on a named arm happens
while that arm still has strictly fewer clicks than views (i.e. some
issued decision for that arm is still unresolved).  This is the guard
the spec's Decision Ledger would enforce and the code does not. -/
def tsGuarded (s : TSState) : List TSOp → Bool
  | [] => true
  | op :: rest =>
    (match op with
      | .click "A" => decide (s.banditA.clicks < s.banditA.views)
      | .click "B" => decide (s.banditB.clicks < s.banditB.views)
      | _ => true) &&
    (match tsStep s op with
      | some s' => tsGuarded s' rest
      | none => true)


/-- State of the UCB1 server (`src/simulation/ucb1_server.py`):
`banditA = UCB1Bandit("A")`, `banditB = UCB1Bandit("B")`,
`decisions = []`. -/
structure UCB1State where
  banditA : UCB1Bandit
  banditB : UCB1Bandit
  decisions : List ℤ
  deriving Repr, DecidableEq

/-- The UCB1 server's initial state. -/
def ucbInit : UCB1State :=
  ⟨UCB1Bandit.init "A", UCB1Bandit.init "B", []⟩

/-- The scores the `/show` route of the UCB1 server computes:
`n_views = banditA.views + banditB.views` is read before either view
counter is incremented, and both arms are scored with
`sample(n_views)`. -/
noncomputable def ucb1ShowScores (s : UCB1State) : ℝ × ℝ :=
  let n_views : ℝ := ((s.banditA.views + s.banditB.views : ℕ) : ℝ)
  (s.banditA.sample n_views, s.banditB.sample n_views)

open Classical in
/-- The `/show` route of the UCB1 server: appends a pending `0` slot to
`decisions`, compares `banditA.sample(n_views)` with
`banditB.sample(n_views)`, and increments the view counter of the
button it returns. -/
noncomputable def ucb1Show (s : UCB1State) : String × UCB1State :=
  let decisions := s.decisions ++ [0]
  if (ucb1ShowScores s).1 > (ucb1ShowScores s).2 then
    ("A", { s with banditA := s.banditA.add_view, decisions })
  else
    ("B", { s with banditB := s.banditB.add_view, decisions })

/-- The `/show` route with the score comparison abstracted to the
oracle boolean `chooseA` (the truth value of
`banditA.sample(n_views) > banditB.sample(n_views)`); quantifying over
`chooseA` covers every outcome of the real-valued comparison. -/
def ucb1ShowStep (chooseA : Bool) (s : UCB1State) : String × UCB1State :=
  let decisions := s.decisions ++ [0]
  if chooseA then
    ("A", { s with banditA := s.banditA.add_view, decisions })
  else
    ("B", { s with banditB := s.banditB.add_view, decisions })

/-- The dispatch of the `/click_button` route of the UCB1 server:
`add_click` on the named bandit; any other button name changes no
counter. -/
def ucb1ClickArm (button : String) (s : UCB1State) : UCB1State :=
  if button = "A" then { s with banditA := s.banditA.add_click }
  else if button = "B" then { s with banditB := s.banditB.add_click }
  else s

/-- The `/click_button` route of the UCB1 server: dispatches on the
posted button name (the `result` string is `"OK"` for either arm name),
then executes `decisions[banditA.views + banditB.views - 3] = 1`. -/
def ucb1Click (button : String) (s : UCB1State) : Option (String × UCB1State) :=
  let s1 := ucb1ClickArm button s
  match pySet s1.decisions ((s1.banditA.views : ℤ) + (s1.banditB.views : ℤ) - 3) 1 with
  | some d => some (clickResult button, { s1 with decisions := d })
  | none => none

/-- One request to the UCB1 server, the score comparison of a show
request supplied as an oracle boolean. -/
inductive UCBOp where
  | show (chooseA : Bool)
  | click (button : String)
  deriving Repr, DecidableEq

/-- One UCB1 server step; a step on which Python raises aborts. -/
def ucbStep (s : UCB1State) : UCBOp → Option UCB1State
  | .show chooseA => some (ucb1ShowStep chooseA s).2
  | .click button => (ucb1Click button s).map (·.2)

/-- Run a request trace against the UCB1 server. -/
def ucbRun (s : UCB1State) : List UCBOp → Option UCB1State
  | [] => some s
  | op :: rest => match ucbStep s op with
    | some s' => ucbRun s' rest
    | none => none

/-- The structural invariant of the UCB1 server: both view counters
stay at least 1 (they start there and only grow), and — because each
`/show` appends exactly one `decisions` slot and increments exactly one
view counter — the total view count exceeds the number of issued
decisions by exactly the two seed views. -/
def ucbInv (s : UCB1State) : Prop :=
  1 ≤ s.banditA.views ∧ 1 ≤ s.banditB.views ∧
    s.banditA.views + s.banditB.views = s.decisions.length + 2

instance (s : UCB1State) : Decidable (ucbInv s) := by
  unfold ucbInv; infer_instance

/-- Modelled from the spec: the `ClassicABTest` arm class is imported
by `src/simulation/ab_test_server.py` from `models.bandits` but is
absent from the source tree; per the spec's Arm Statistics Store
contract, an arm holds non-negative `views`/`clicks` counters starting
at zero, `record_view`/`add_view` increments `views`, and
`record_click`/`add_click` increments `clicks`. -/
structure ClassicABTest where
  name : String
  views : ℕ
  clicks : ℕ
  deriving Repr, DecidableEq

/-- Modelled from the spec: arm created at engine start with zeroed
counters. -/
def ClassicABTest.init (name : String) : ClassicABTest :=
  ⟨name, 0, 0⟩

/-- Modelled from the spec: `record_view` increments the arm's own
view counter. -/
def ClassicABTest.add_view (self : ClassicABTest) : ClassicABTest :=
  { self with views := self.views + 1 }

/-- Modelled from the spec: `record_click` increments the arm's own
click counter. -/
def ClassicABTest.add_click (self : ClassicABTest) : ClassicABTest :=
  { self with clicks := self.clicks + 1 }

/-- State of the alternation baseline server
(`src/simulation/ab_test_server.py`): the two variants, the global
`current_assignment` string, and the `decisions` list. -/
structure ABState where
  variantA : ClassicABTest
  variantB : ClassicABTest
  current_assignment : String
  decisions : List ℤ
  deriving Repr, DecidableEq

/-- The baseline server's initial state: fresh variants and
`current_assignment = "A"` ("Start with A"). -/
def abInit : ABState :=
  ⟨ClassicABTest.init "A", ClassicABTest.init "B", "A", []⟩

/-- The `/show` route of the baseline server, exactly in source order:
append a `0` slot; if `current_assignment == "A"` then
`variantA.add_view()` and `current_assignment = "B"`, else
`variantB.add_view()` and `current_assignment = "A"`; finally return
`{"button": current_assignment}` — the value of `current_assignment`
AFTER the reassignment. -/
def abShow (s : ABState) : String × ABState :=
  let decisions := s.decisions ++ [0]
  if s.current_assignment = "A" then
    let s' := { s with variantA := s.variantA.add_view,
                       current_assignment := "B", decisions }
    (s'.current_assignment, s')
  else
    let s' := { s with variantB := s.variantB.add_view,
                       current_assignment := "A", decisions }
    (s'.current_assignment, s')

/-- The warm-up gate of the Thompson server's `/show` route is active
when `minimum_exploration` is enabled on both bandit instances and the
total view count read at the top of the route is below the 500-decision
window. -/
def tsGateActive (s : TSState) : Prop :=
  s.banditA.minimum_exploration = true ∧ s.banditB.minimum_exploration = true ∧
    s.banditA.views + s.banditB.views < 500

instance (s : TSState) : Decidable (tsGateActive s) := by
  unfold tsGateActive; infer_instance

open Classical in
/-- The selection rule of the warm-up branch as a function of the two
`np.random.random()` draws it consumes: the branch sets
`sample_a`/`sample_b` to the draws and then picks `"A"` iff
`sample_a > sample_b`.  Stated over the real draw space `[0, 1]` of the
uniform generator. -/
noncomputable def warmupChoice (ua ub : ℝ) : String :=
  if ua > ub then "A" else "B"

/-- The event, in the uniform draw square `[0,1] × [0,1]`, that the
warm-up branch selects the given arm. -/
def warmupWins (arm : String) : Set (ℝ × ℝ) :=
  {p : ℝ × ℝ | p.1 ∈ Set.Icc (0:ℝ) 1 ∧ p.2 ∈ Set.Icc (0:ℝ) 1 ∧
    warmupChoice p.1 p.2 = arm}

/-- A fixed beta-draw oracle used for concrete traces: returns the
first Beta parameter as the drawn value (so the arm whose posterior
`a`-parameter is larger wins the comparison). -/
def tsBetaOracle : ℤ → ℤ → ℚ := fun a _ => (a : ℚ)

/-- The spec's concrete Thompson scenario, arm A: an arm seeded with
`alpha0 = 1`, `beta0 = 1` after recording 10 views and 7 clicks
through the engine operations. -/
def c4ArmA : ThompsonBandit :=
  ThompsonBandit.add_click^[7] (ThompsonBandit.add_view^[10] (ThompsonBandit.init "A" 1 1 false))

/-- The spec's concrete Thompson scenario, arm B: `alpha0 = 1`,
`beta0 = 1` after 10 views and 3 clicks. -/
def c4ArmB : ThompsonBandit :=
  ThompsonBandit.add_click^[3] (ThompsonBandit.add_view^[10] (ThompsonBandit.init "B" 1 1 false))

/-- A Thompson server state with the warm-up gate enabled on both arms
(the `TS_min_exp` configuration the server's comments describe). -/
def tsGateInit : TSState :=
  ⟨ThompsonBandit.init "A" 6 78 true, ThompsonBandit.init "B" 1 1 true, []⟩

/-! ## Supporting lemmas -/

lemma pySet_eq_some {l d : List ℤ} {i x : ℤ} (h : pySet l i x = some d) :
    d.length = l.length := by
  unfold pySet at h
  split at h
  · cases h; simp
  · cases h

lemma pySet_last {l : List ℤ} {x : ℤ} (hl : 1 ≤ l.length) :
    pySet l ((l.length : ℤ) - 1) x = some (l.set (l.length - 1) x) := by
  unfold pySet pyIdx
  have h0 : ¬ ((l.length : ℤ) - 1 < 0) := by omega
  rw [if_neg h0, if_pos (by omega)]
  have ht : ((l.length : ℤ) - 1).toNat = l.length - 1 := by omega
  rw [ht]

lemma pySet_neg_one_empty (x : ℤ) : pySet [] (-1) x = none := by
  simp [pySet, pyIdx]

lemma tsShow_snd_cases (ua ub : ℚ) (betaDraw : ℤ → ℤ → ℚ) (s : TSState) :
    (tsShow ua ub betaDraw s).2 =
        { s with banditA := s.banditA.add_view, decisions := s.decisions ++ [0] } ∨
    (tsShow ua ub betaDraw s).2 =
        { s with banditB := s.banditB.add_view, decisions := s.decisions ++ [0] } := by
  unfold tsShow
  dsimp only
  split <;> split <;> first
    | exact Or.inl rfl
    | exact Or.inr rfl

lemma tsShow_inv (ua ub : ℚ) (betaDraw : ℤ → ℤ → ℚ) (s : TSState) (h : tsInv s) :
    tsInv (tsShow ua ub betaDraw s).2 := by
  obtain ⟨hA, hB⟩ := h
  rcases tsShow_snd_cases ua ub betaDraw s with hc | hc <;>
    rw [hc] <;>
    simp only [tsInv, ThompsonBandit.add_view] at * <;>
    omega

lemma tsClick_inv {button : String} {s : TSState} {r : String} {s' : TSState}
    (h : tsClick button s = some (r, s'))
    (hA : button = "A" → s.banditA.clicks < s.banditA.views)
    (hB : button = "B" → s.banditB.clicks < s.banditB.views)
    (hinv : tsInv s) : tsInv s' := by
  obtain ⟨h1, h2⟩ := hinv
  unfold tsClick at h
  dsimp only at h
  split at h
  · cases h
    unfold tsInv tsClickArm
    by_cases hbA : button = "A"
    · simp only [hbA, if_true, ThompsonBandit.add_click]
      exact ⟨hA hbA, h2⟩
    · by_cases hbB : button = "B"
      · simp only [hbA, hbB, if_false, if_true, ThompsonBandit.add_click]
        exact ⟨h1, hB hbB⟩
      · simp only [hbA, hbB, if_false]
        exact ⟨h1, h2⟩
  · cases h

lemma tsRun_guarded_inv (tr : List TSOp) :
    ∀ s : TSState, tsInv s → tsGuarded s tr = true →
      ∀ s', tsRun s tr = some s' → tsInv s' := by
  induction tr with
  | nil =>
    intro s hinv _ s' h
    unfold tsRun at h
    cases h
    exact hinv
  | cons op rest ih =>
    intro s hinv hg s' h
    unfold tsGuarded at hg
    rw [Bool.and_eq_true] at hg
    obtain ⟨hg1, hg2⟩ := hg
    unfold tsRun at h
    cases hstep : tsStep s op with
    | none => rw [hstep] at h; cases h
    | some s1 =>
      rw [hstep] at h
      rw [hstep] at hg2
      have hinv1 : tsInv s1 := by
        rcases op with ⟨ua, ub, betaDraw⟩ | ⟨b⟩
        · unfold tsStep at hstep
          obtain rfl : (tsShow ua ub betaDraw s).2 = s1 := Option.some.inj hstep
          exact tsShow_inv ua ub betaDraw s hinv
        · unfold tsStep at hstep
          rcases Option.map_eq_some'.1 hstep with ⟨⟨r, s1'⟩, hc, hs1⟩
          cases hs1
          apply tsClick_inv hc ?_ ?_ hinv
          · intro hb; subst hb
            simpa using hg1
          · intro hb; subst hb
            simpa using hg1
      exact ih s1 hinv1 hg2 s' h

lemma ucb1ClickArm_facts (b : String) (s : UCB1State) :
    (ucb1ClickArm b s).banditA.views = s.banditA.views ∧
    (ucb1ClickArm b s).banditB.views = s.banditB.views ∧
    (ucb1ClickArm b s).decisions = s.decisions := by
  unfold ucb1ClickArm
  split_ifs <;> simp [UCB1Bandit.add_click]

lemma ucb1ShowStep_inv {c : Bool} {s : UCB1State} (h : ucbInv s) :
    ucbInv (ucb1ShowStep c s).2 := by
  obtain ⟨h1, h2, h3⟩ := h
  unfold ucb1ShowStep
  dsimp only
  split <;>
    simp only [ucbInv, UCB1Bandit.add_view, List.length_append, List.length_cons,
      List.length_nil] <;>
    omega

lemma ucb1Click_scrut {b : String} {s : UCB1State} (hinv : ucbInv s) :
    pySet (ucb1ClickArm b s).decisions
        (((ucb1ClickArm b s).banditA.views : ℤ) + ((ucb1ClickArm b s).banditB.views : ℤ) - 3) 1 =
      pySet s.decisions ((s.decisions.length : ℤ) - 1) 1 := by
  obtain ⟨hv1, hv2, hd⟩ := ucb1ClickArm_facts b s
  obtain ⟨_, _, h3⟩ := hinv
  rw [hd, hv1, hv2]
  congr 1
  omega

lemma ucb1Click_set_last {b : String} {s : UCB1State} {r : String} {s' : UCB1State}
    (h : ucb1Click b s = some (r, s')) (hinv : ucbInv s) :
    1 ≤ s.decisions.length ∧
      s'.decisions = s.decisions.set (s.decisions.length - 1) 1 ∧
      s'.banditA.views = s.banditA.views ∧ s'.banditB.views = s.banditB.views := by
  obtain ⟨hv1, hv2, hd⟩ := ucb1ClickArm_facts b s
  unfold ucb1Click at h
  dsimp only at h
  rw [ucb1Click_scrut hinv] at h
  by_cases hl : 1 ≤ s.decisions.length
  · rw [pySet_last hl] at h
    cases h
    exact ⟨hl, rfl, hv1, hv2⟩
  · have hl0 : s.decisions = [] := by
      cases hd0 : s.decisions with
      | nil => rfl
      | cons a l => rw [hd0] at hl; simp at hl
    rw [hl0] at h
    simp only [List.length_nil, Nat.cast_zero, zero_sub] at h
    rw [pySet_neg_one_empty] at h
    cases h

lemma ucb1Click_inv {b : String} {s : UCB1State} {r : String} {s' : UCB1State}
    (h : ucb1Click b s = some (r, s')) (hinv : ucbInv s) : ucbInv s' := by
  obtain ⟨h1, h2, h3⟩ := hinv
  obtain ⟨hl, hset, hv1, hv2⟩ := ucb1Click_set_last h ⟨h1, h2, h3⟩
  refine ⟨?_, ?_, ?_⟩
  · rw [hv1]; exact h1
  · rw [hv2]; exact h2
  · rw [hv1, hv2, hset, List.length_set]; exact h3

lemma ucbRun_inv (tr : List UCBOp) :
    ∀ s : UCB1State, ucbInv s → ∀ s', ucbRun s tr = some s' → ucbInv s' := by
  induction tr with
  | nil =>
    intro s hinv s' h
    unfold ucbRun at h
    cases h
    exact hinv
  | cons op rest ih =>
    intro s hinv s' h
    unfold ucbRun at h
    cases hstep : ucbStep s op with
    | none => rw [hstep] at h; cases h
    | some s1 =>
      rw [hstep] at h
      have hinv1 : ucbInv s1 := by
        rcases op with ⟨c⟩ | ⟨b⟩
        · unfold ucbStep at hstep
          obtain rfl : (ucb1ShowStep c s).2 = s1 := Option.some.inj hstep
          exact ucb1ShowStep_inv hinv
        · unfold ucbStep at hstep
          rcases Option.map_eq_some'.1 hstep with ⟨⟨r, s1'⟩, hc, hs1⟩
          cases hs1
          exact ucb1Click_inv hc hinv
      exact ih s1 hinv1 s' h

lemma warmupChoice_eq_A (ua ub : ℝ) : warmupChoice ua ub = "A" ↔ ub < ua := by
  unfold warmupChoice
  split_ifs with h
  · simpa using h
  · simpa using h

lemma warmupChoice_eq_B (ua ub : ℝ) : warmupChoice ua ub = "B" ↔ ¬ ub < ua := by
  unfold warmupChoice
  split_ifs with h
  · simpa using h
  · simpa using h

lemma warmupWins_A_eq :
    warmupWins "A" =
      {p : ℝ × ℝ | p.1 ∈ Set.Icc (0:ℝ) 1 ∧ p.2 ∈ Set.Icc (0:ℝ) 1 ∧ p.2 < p.1} := by
  ext p
  by_cases hc : p.2 < p.1 <;> simp [warmupWins, warmupChoice, hc, GT.gt]

lemma warmupWins_B_eq :
    warmupWins "B" =
      (Set.Icc (0:ℝ) 1 ×ˢ Set.Icc (0:ℝ) 1) \ warmupWins "A" := by
  ext p
  constructor
  · rintro ⟨h1, h2, h3⟩
    refine ⟨⟨h1, h2⟩, ?_⟩
    rintro ⟨_, _, hc⟩
    exact (warmupChoice_eq_B p.1 p.2).1 h3 ((warmupChoice_eq_A p.1 p.2).1 hc)
  · rintro ⟨⟨h1, h2⟩, hn⟩
    refine ⟨h1, h2, (warmupChoice_eq_B p.1 p.2).2 ?_⟩
    intro hc
    exact hn ⟨h1, h2, (warmupChoice_eq_A p.1 p.2).2 hc⟩

open MeasureTheory in
lemma volume_warmupWins_A : volume (warmupWins "A") = 1/2 := by
  rw [warmupWins_A_eq]
  set E : Set (ℝ × ℝ) :=
    {p : ℝ × ℝ | p.1 ∈ Set.Icc (0:ℝ) 1 ∧ p.2 ∈ Set.Icc (0:ℝ) 1 ∧ p.2 < p.1} with hE
  set RB : Set (ℝ × ℝ) := regionBetween (fun _ => (0:ℝ)) id (Set.Icc (0:ℝ) 1) with hRBdef
  have hsub1 : RB ⊆ E := by
    rintro ⟨x, y⟩ ⟨hx, hy⟩
    simp only [Set.mem_Ioo, id] at hy
    exact ⟨hx, ⟨le_of_lt hy.1, le_of_lt (lt_of_lt_of_le hy.2 hx.2)⟩, hy.2⟩
  have hsub2 : E ⊆ RB ∪ ((Set.univ : Set ℝ) ×ˢ ({0} : Set ℝ)) := by
    rintro ⟨x, y⟩ ⟨hx, hy, hlt⟩
    rcases eq_or_lt_of_le hy.1 with h0 | h0
    · exact Or.inr ⟨Set.mem_univ _, by simpa using h0.symm⟩
    · exact Or.inl ⟨hx, h0, hlt⟩
  have hnull : volume ((Set.univ : Set ℝ) ×ˢ ({0} : Set ℝ)) = 0 := by
    rw [Measure.volume_eq_prod ℝ ℝ, Measure.prod_prod, Real.volume_singleton, mul_zero]
  have hRBvol : volume RB = 1/2 := by
    rw [hRBdef, Measure.volume_eq_prod ℝ ℝ]
    rw [volume_regionBetween_eq_integral integrableOn_zero continuous_id.integrableOn_Icc
      measurableSet_Icc (fun x hx => hx.1)]
    simp only [Pi.sub_apply, sub_zero, id]
    rw [MeasureTheory.integral_Icc_eq_integral_Ioc,
      ← intervalIntegral.integral_of_le zero_le_one, integral_id]
    norm_num
    rw [ENNReal.ofReal_div_of_pos (by norm_num)]
    norm_num
  have hle1 : volume RB ≤ volume E := measure_mono hsub1
  have hle2 : volume E ≤ volume RB := by
    calc volume E ≤ volume (RB ∪ ((Set.univ : Set ℝ) ×ˢ ({0} : Set ℝ))) := measure_mono hsub2
    _ ≤ volume RB + volume ((Set.univ : Set ℝ) ×ˢ ({0} : Set ℝ)) := measure_union_le _ _
    _ = volume RB := by rw [hnull, add_zero]
  rw [← hRBvol]
  exact le_antisymm hle2 hle1

open MeasureTheory in
lemma volume_unit_square :
    volume (Set.Icc (0:ℝ) 1 ×ˢ Set.Icc (0:ℝ) 1) = 1 := by
  rw [Measure.volume_eq_prod ℝ ℝ, Measure.prod_prod, Real.volume_Icc]
  norm_num

lemma measurableSet_warmupWins_A : MeasurableSet (warmupWins "A") := by
  rw [warmupWins_A_eq]
  have h : {p : ℝ × ℝ | p.1 ∈ Set.Icc (0:ℝ) 1 ∧ p.2 ∈ Set.Icc (0:ℝ) 1 ∧ p.2 < p.1} =
      (Set.Icc (0:ℝ) 1 ×ˢ Set.Icc (0:ℝ) 1) ∩ {p : ℝ × ℝ | p.2 < p.1} := by
    ext p
    simp only [Set.mem_setOf_eq, Set.mem_inter_iff, Set.mem_prod]
    tauto
  rw [h]
  exact (measurableSet_Icc.prod measurableSet_Icc).inter
    (measurableSet_lt measurable_snd measurable_fst)

open MeasureTheory in
lemma volume_warmupWins_B : volume (warmupWins "B") = 1/2 := by
  have hsub : warmupWins "A" ⊆ Set.Icc (0:ℝ) 1 ×ˢ Set.Icc (0:ℝ) 1 := by
    rw [warmupWins_A_eq]
    rintro ⟨x, y⟩ ⟨hx, hy, _⟩
    exact ⟨hx, hy⟩
  have hfin : volume (warmupWins "A") ≠ ⊤ := by
    rw [volume_warmupWins_A]
    exact (ENNReal.div_lt_top ENNReal.one_ne_top two_ne_zero).ne
  rw [warmupWins_B_eq,
    measure_diff hsub measurableSet_warmupWins_A.nullMeasurableSet hfin,
    volume_warmupWins_A, volume_unit_square]
  exact ENNReal.sub_half ENNReal.one_ne_top

lemma tsShow_gate_fst {ua ub : ℚ} {betaDraw : ℤ → ℤ → ℚ} {s : TSState}
    (h : tsGateActive s) :
    (tsShow ua ub betaDraw s).1 = if ua > ub then "A" else "B" := by
  obtain ⟨hA, hB, hn⟩ := h
  have hcond : ((true && true : Bool) = true ∧ s.banditA.views + s.banditB.views < 500) :=
    ⟨rfl, hn⟩
  unfold tsShow
  dsimp only
  rw [hA, hB, if_pos hcond]
  by_cases hc : ua > ub
  · rw [if_pos hc, if_pos hc]
  · rw [if_neg hc, if_neg hc]

lemma tsShow_delegate_fst {ua ub : ℚ} {betaDraw : ℤ → ℤ → ℚ} {s : TSState}
    (h : ¬ tsGateActive s) :
    (tsShow ua ub betaDraw s).1 =
      if s.banditA.sample betaDraw > s.banditB.sample betaDraw then "A" else "B" := by
  have hcond : ¬ ((s.banditA.minimum_exploration && s.banditB.minimum_exploration) = true ∧
      s.banditA.views + s.banditB.views < 500) := by
    rintro ⟨h1, h2⟩
    rw [Bool.and_eq_true] at h1
    exact h ⟨h1.1, h1.2, h2⟩
  unfold tsShow
  dsimp only
  rw [if_neg hcond]
  by_cases hc : s.banditA.sample betaDraw > s.banditB.sample betaDraw
  · rw [if_pos hc, if_pos hc]
  · rw [if_neg hc, if_neg hc]

/-! ## Claim theorems -/

/-- C1, counterexample: the engine does not guard outcome reports, so a
single `click_button("B")` arriving after a decision for arm A (a
sequence of one decision and one outcome operation from the initial
engine state) leaves arm B with `clicks = 1 > views = 0`, violating
`0 ≤ clicks ≤ views`. -/
theorem thompson_unmatched_click_breaks_invariant :
    (tsRun tsInit [TSOp.show 1 0 tsBetaOracle, TSOp.click "B"]).map
        (fun s => (s.banditB.clicks, s.banditB.views, decide (tsInv s))) =
      some (1, 0, false) := by
  decide

/-- C1, amended: for every sequence of show and click operations from
the Thompson server's initial state in which each click on an arm
arrives while that arm still has strictly fewer clicks than views (at
most one outcome per issued decision), both arms satisfy
`clicks ≤ views` after every operation; the lower bound `0 ≤ clicks`
holds unconditionally since the counters are naturals that are only
incremented. -/
theorem thompson_guarded_traces_preserve_invariant (tr : List TSOp) (s' : TSState)
    (hg : tsGuarded tsInit tr = true) (h : tsRun tsInit tr = some s') :
    s'.banditA.clicks ≤ s'.banditA.views ∧ s'.banditB.clicks ≤ s'.banditB.views :=
  tsRun_guarded_inv tr tsInit (by decide) hg s' h

/-- C1, witness: a concrete guarded trace — one decision that shows arm
A, then one click on arm A — on which the amended invariant theorem
applies. -/
theorem thompson_guarded_traces_preserve_invariant_witness :
    tsGuarded tsInit [TSOp.show 1 0 tsBetaOracle, TSOp.click "A"] = true ∧
    tsRun tsInit [TSOp.show 1 0 tsBetaOracle, TSOp.click "A"] =
      some ⟨⟨1, 1, "A", 6, 78, false⟩, ⟨0, 0, "B", 1, 1, false⟩, [1]⟩ ∧
    ((⟨⟨1, 1, "A", 6, 78, false⟩, ⟨0, 0, "B", 1, 1, false⟩, ([1] : List ℤ)⟩ :
        TSState).banditA.clicks ≤
      (⟨⟨1, 1, "A", 6, 78, false⟩, ⟨0, 0, "B", 1, 1, false⟩, ([1] : List ℤ)⟩ :
        TSState).banditA.views ∧
     (⟨⟨1, 1, "A", 6, 78, false⟩, ⟨0, 0, "B", 1, 1, false⟩, ([1] : List ℤ)⟩ :
        TSState).banditB.clicks ≤
      (⟨⟨1, 1, "A", 6, 78, false⟩, ⟨0, 0, "B", 1, 1, false⟩, ([1] : List ℤ)⟩ :
        TSState).banditB.views) :=
  ⟨by decide, by decide,
    thompson_guarded_traces_preserve_invariant
      [TSOp.show 1 0 tsBetaOracle, TSOp.click "A"]
      ⟨⟨1, 1, "A", 6, 78, false⟩, ⟨0, 0, "B", 1, 1, false⟩, [1]⟩
      (by decide) (by decide)⟩

/-- C2: the code has no resolve-once protocol.  After one decision for
arm A, a first `click_button("A")` is counted, and a second identical
report is also counted: it returns `"OK"` again (no
`AlreadyResolvedError`) and increments `clicks` from 1 to 2, silently
double-counting; moreover an outcome report with no issued decision at
all raises IndexError (`none`) instead of an `UnknownTicketError`. -/
theorem thompson_duplicate_click_double_counts :
    tsClick "A" ((tsShow 1 0 tsBetaOracle tsInit).2) =
        some ("OK", ⟨⟨1, 1, "A", 6, 78, false⟩, ⟨0, 0, "B", 1, 1, false⟩, [1]⟩) ∧
    tsClick "A" ⟨⟨1, 1, "A", 6, 78, false⟩, ⟨0, 0, "B", 1, 1, false⟩, [1]⟩ =
        some ("OK", ⟨⟨2, 1, "A", 6, 78, false⟩, ⟨0, 0, "B", 1, 1, false⟩, [1]⟩) ∧
    tsClick "A" tsInit = none := by
  decide

/-- C3: `add_click` on a Thompson arm with `views = 0` is not rejected
and signals no `InvalidStateError` — it is a total function that
returns the mutated arm with `clicks = 1 > views = 0`, the state the
claim says must be unreachable. -/
theorem thompson_zero_view_click_not_rejected :
    (ThompsonBandit.init "A" 1 1 false).add_click = ⟨1, 0, "A", 1, 1, false⟩ ∧
    ¬ ((ThompsonBandit.init "A" 1 1 false).add_click.clicks ≤
        (ThompsonBandit.init "A" 1 1 false).add_click.views) := by
  decide

/-- C4: `ThompsonBandit.sample` draws from the Beta distribution with
parameters `(a_prior + clicks, b_prior + views - clicks)` for every arm
state and every generator, and in particular an arm seeded with priors
`(1, 1)` draws from Beta(8, 4) after 10 recorded views and 7 recorded
clicks, and from Beta(4, 8) after 10 views and 3 clicks. -/
theorem thompson_sample_beta_params :
    (∀ (arm : ThompsonBandit) (betaDraw : ℤ → ℤ → ℚ),
      arm.sample betaDraw =
        betaDraw (arm.a_prior + arm.clicks) (arm.b_prior + (arm.views : ℤ) - arm.clicks)) ∧
    (∀ betaDraw : ℤ → ℤ → ℚ, c4ArmA.sample betaDraw = betaDraw 8 4) ∧
    (∀ betaDraw : ℤ → ℤ → ℚ, c4ArmB.sample betaDraw = betaDraw 4 8) := by
  refine ⟨fun arm betaDraw => rfl, fun betaDraw => ?_, fun betaDraw => ?_⟩
  · have h : c4ArmA = ⟨7, 10, "A", 1, 1, false⟩ := by decide
    rw [h, ThompsonBandit.sample]
    norm_num
  · have h : c4ArmB = ⟨3, 10, "B", 1, 1, false⟩ := by decide
    rw [h, ThompsonBandit.sample]
    norm_num

/-- C5: for every UCB1 server state, the two scores computed by the
`/show` route equal `ctr_estimate + sqrt(3 * ln(n_total) / views)` with
`n_total` the sum of both arms' view counters read at the moment of
scoring (before the chosen arm's view increment), and the route answers
"A" exactly when arm A's score is the strictly larger one. -/
theorem ucb1_score_formula (s : UCB1State) :
    ucb1ShowScores s =
      ((s.banditA.ctr_estimate : ℝ) +
         Real.sqrt (3 * Real.log ((s.banditA.views : ℝ) + (s.banditB.views : ℝ)) /
           (s.banditA.views : ℝ)),
       (s.banditB.ctr_estimate : ℝ) +
         Real.sqrt (3 * Real.log ((s.banditA.views : ℝ) + (s.banditB.views : ℝ)) /
           (s.banditB.views : ℝ))) ∧
    ((ucb1Show s).1 = "A" ↔ (ucb1ShowScores s).1 > (ucb1ShowScores s).2) := by
  constructor
  · simp only [ucb1ShowScores, UCB1Bandit.sample]
    push_cast
    rfl
  · by_cases h : (ucb1ShowScores s).1 > (ucb1ShowScores s).2
    · simp [ucb1Show, h]
    · simp [ucb1Show, h]

/-- C6: the incrementally maintained `ctr_estimate` of a UCB1 arm is
not the CTR recomputed from the raw counters: after the operation
sequence `add_view`, `add_click`, `add_view` from the initial arm state
the estimate is 1/2 while `clicks / views = 1/3`. -/
theorem ucb1_ctr_estimate_diverges_from_ctr :
    ((UCB1Bandit.init "A").add_view.add_click.add_view).ctr_estimate = 1/2 ∧
    ((UCB1Bandit.init "A").add_view.add_click.add_view).clicks = 1 ∧
    ((UCB1Bandit.init "A").add_view.add_click.add_view).views = 3 ∧
    (((UCB1Bandit.init "A").add_view.add_click.add_view).clicks : ℚ) /
        (((UCB1Bandit.init "A").add_view.add_click.add_view).views : ℚ) = 1/3 ∧
    ((UCB1Bandit.init "A").add_view.add_click.add_view).ctr_estimate ≠
      (((UCB1Bandit.init "A").add_view.add_click.add_view).clicks : ℚ) /
        (((UCB1Bandit.init "A").add_view.add_click.add_view).views : ℚ) := by
  norm_num [UCB1Bandit.init, UCB1Bandit.add_view, UCB1Bandit.add_click]

/-- C7: every state the UCB1 server can reach keeps both view counters
at least 1 (they are initialized to 1 and never decrease), so the
total-trials argument fed to the score's logarithm is at least 2 and
neither `log(0)` nor a division by zero views can occur. -/
theorem ucb1_views_ge_one_invariant (tr : List UCBOp) (s : UCB1State)
    (h : ucbRun ucbInit tr = some s) :
    1 ≤ s.banditA.views ∧ 1 ≤ s.banditB.views ∧
      2 ≤ s.banditA.views + s.banditB.views := by
  obtain ⟨h1, h2, h3⟩ := ucbRun_inv tr ucbInit (by decide) s h
  exact ⟨h1, h2, by omega⟩

/-- C7, witness: the invariant theorem applied to the one-decision
trace. -/
theorem ucb1_views_ge_one_invariant_witness :
    ucbRun ucbInit [UCBOp.show true] = some ⟨⟨0, 0, 2, "A"⟩, ⟨0, 0, 1, "B"⟩, [0]⟩ ∧
    (1 ≤ (⟨⟨0, 0, 2, "A"⟩, ⟨0, 0, 1, "B"⟩, ([0] : List ℤ)⟩ : UCB1State).banditA.views ∧
     1 ≤ (⟨⟨0, 0, 2, "A"⟩, ⟨0, 0, 1, "B"⟩, ([0] : List ℤ)⟩ : UCB1State).banditB.views ∧
     2 ≤ (⟨⟨0, 0, 2, "A"⟩, ⟨0, 0, 1, "B"⟩, ([0] : List ℤ)⟩ : UCB1State).banditA.views +
          (⟨⟨0, 0, 2, "A"⟩, ⟨0, 0, 1, "B"⟩, ([0] : List ℤ)⟩ : UCB1State).banditB.views) :=
  ⟨by decide, ucb1_views_ge_one_invariant [UCBOp.show true] _ (by decide)⟩

/-- C8: while the warm-up gate is active (minimum exploration enabled
on both arms and total views below the 500-decision window) the
decision depends only on the two uniform draws — any two arm-statistics
states and any two beta generators yield the same arm under the same
draws — and it equals the coin-flip rule `warmupChoice`; that rule
selects each arm with probability 1/2 under the uniform measure on the
draw square; once the gate is inactive, the decision is exactly the
comparison of the two policy (Beta posterior) scores. -/
theorem warmup_gate_fair_and_stat_independent :
    (∀ (ua ub : ℚ) (betaDraw1 betaDraw2 : ℤ → ℤ → ℚ) (s1 s2 : TSState),
        tsGateActive s1 → tsGateActive s2 →
          (tsShow ua ub betaDraw1 s1).1 = (tsShow ua ub betaDraw2 s2).1) ∧
    (∀ (ua ub : ℚ) (betaDraw : ℤ → ℤ → ℚ) (s : TSState),
        tsGateActive s →
          (tsShow ua ub betaDraw s).1 = warmupChoice (ua : ℝ) (ub : ℝ)) ∧
    MeasureTheory.volume (warmupWins "A") = 1/2 ∧
    MeasureTheory.volume (warmupWins "B") = 1/2 ∧
    (∀ (ua ub : ℚ) (betaDraw : ℤ → ℤ → ℚ) (s : TSState),
        ¬ tsGateActive s →
          (tsShow ua ub betaDraw s).1 =
            if s.banditA.sample betaDraw > s.banditB.sample betaDraw then "A" else "B") := by
  refine ⟨?_, ?_, volume_warmupWins_A, volume_warmupWins_B, ?_⟩
  · intro ua ub betaDraw1 betaDraw2 s1 s2 h1 h2
    rw [tsShow_gate_fst h1, tsShow_gate_fst h2]
  · intro ua ub betaDraw s hs
    rw [tsShow_gate_fst hs]
    by_cases hc : ua > ub
    · rw [if_pos hc]
      exact ((warmupChoice_eq_A _ _).2 (by exact_mod_cast hc)).symm
    · rw [if_neg hc]
      refine ((warmupChoice_eq_B _ _).2 ?_).symm
      intro hlt
      exact hc (by exact_mod_cast hlt)
  · intro ua ub betaDraw s hs
    exact tsShow_delegate_fst hs

/-- C8, witness: the gate theorem applied at the enabled-gate initial
state with concrete draws. -/
theorem warmup_gate_fair_and_stat_independent_witness :
    tsGateActive tsGateInit ∧
    (tsShow 1 0 tsBetaOracle tsGateInit).1 = warmupChoice ((1 : ℚ) : ℝ) ((0 : ℚ) : ℝ) :=
  ⟨by decide,
    warmup_gate_fair_and_stat_independent.2.1 1 0 tsBetaOracle tsGateInit (by decide)⟩

/-- C9: the alternation baseline's `/show` route does alternate
deterministically, but the arm name it returns is always the opposite
of the arm whose view counter it increments: the first call returns
"B" while counting the view on variant A, and the second call returns
"A" while counting the view on variant B. -/
theorem ab_test_returned_arm_not_counted :
    (abShow abInit).1 = "B" ∧
    (abShow abInit).2.variantA.views = 1 ∧
    (abShow abInit).2.variantB.views = 0 ∧
    (abShow (abShow abInit).2).1 = "A" ∧
    (abShow (abShow abInit).2).2.variantA.views = 1 ∧
    (abShow (abShow abInit).2).2.variantB.views = 1 := by
  decide

/-- C10: in every reachable UCB1 server state, total views exceed the
number of issued decision slots by exactly 2 (the two seed views), so
the outcome write at integer index `banditA.views + banditB.views - 3`
is the index `len(decisions) - 1` of the slot appended by the most
recent decision, and any successful `click_button` rewrites exactly
that last slot. -/
theorem ucb1_click_targets_latest_slot (tr : List UCBOp) (s : UCB1State)
    (h : ucbRun ucbInit tr = some s) :
    s.banditA.views + s.banditB.views = s.decisions.length + 2 ∧
    (s.banditA.views : ℤ) + (s.banditB.views : ℤ) - 3 = (s.decisions.length : ℤ) - 1 ∧
    ∀ (b r : String) (s' : UCB1State), ucb1Click b s = some (r, s') →
      1 ≤ s.decisions.length ∧ s'.decisions = s.decisions.set (s.decisions.length - 1) 1 := by
  have hinv := ucbRun_inv tr ucbInit (by decide) s h
  refine ⟨hinv.2.2, ?_, ?_⟩
  · have h3 := hinv.2.2
    omega
  · intro b r s' hc
    obtain ⟨hl, hset, _, _⟩ := ucb1Click_set_last hc hinv
    exact ⟨hl, hset⟩

/-- C10, witness: the slot-targeting theorem applied to the
one-decision trace that shows arm B. -/
theorem ucb1_click_targets_latest_slot_witness :
    ucbRun ucbInit [UCBOp.show false] = some ⟨⟨0, 0, 1, "A"⟩, ⟨0, 0, 2, "B"⟩, [0]⟩ ∧
    ((⟨⟨0, 0, 1, "A"⟩, ⟨0, 0, 2, "B"⟩, ([0] : List ℤ)⟩ : UCB1State).banditA.views +
        (⟨⟨0, 0, 1, "A"⟩, ⟨0, 0, 2, "B"⟩, ([0] : List ℤ)⟩ : UCB1State).banditB.views =
      (⟨⟨0, 0, 1, "A"⟩, ⟨0, 0, 2, "B"⟩, ([0] : List ℤ)⟩ : UCB1State).decisions.length + 2 ∧
     ((⟨⟨0, 0, 1, "A"⟩, ⟨0, 0, 2, "B"⟩, ([0] : List ℤ)⟩ : UCB1State).banditA.views : ℤ) +
        ((⟨⟨0, 0, 1, "A"⟩, ⟨0, 0, 2, "B"⟩, ([0] : List ℤ)⟩ : UCB1State).banditB.views : ℤ) - 3 =
      ((⟨⟨0, 0, 1, "A"⟩, ⟨0, 0, 2, "B"⟩, ([0] : List ℤ)⟩ : UCB1State).decisions.length : ℤ) - 1 ∧
     ∀ (b r : String) (s' : UCB1State),
        ucb1Click b (⟨⟨0, 0, 1, "A"⟩, ⟨0, 0, 2, "B"⟩, ([0] : List ℤ)⟩ : UCB1State) =
            some (r, s') →
          1 ≤ (⟨⟨0, 0, 1, "A"⟩, ⟨0, 0, 2, "B"⟩, ([0] : List ℤ)⟩ : UCB1State).decisions.length ∧
          s'.decisions =
            (⟨⟨0, 0, 1, "A"⟩, ⟨0, 0, 2, "B"⟩, ([0] : List ℤ)⟩ : UCB1State).decisions.set
              ((⟨⟨0, 0, 1, "A"⟩, ⟨0, 0, 2, "B"⟩, ([0] : List ℤ)⟩ :
                  UCB1State).decisions.length - 1) 1) :=
  ⟨by decide,
    ucb1_click_targets_latest_slot [UCBOp.show false]
      ⟨⟨0, 0, 1, "A"⟩, ⟨0, 0, 2, "B"⟩, [0]⟩ (by decide)⟩
